import Mathlib

/-!
Verification development for the command-execution engine of rtty
(`command.c`): the bounded-concurrency task scheduler, the process
spawn/teardown lifecycle, the executable resolver `cmd_lookup`, the
credential check `login_test`, the reply encoder `cmd_reply`, and the
request entry point `run_command`.

Pure parts of the C code are translated into executable Lean functions;
the event-driven lifecycle (libev callbacks `ev_child_exit`,
`ev_timer_cb`, `ev_io_stdout_cb`, `ev_io_stderr_cb` together with
`add_task` / `run_task`) is translated into an explicit step function on
a scheduler state, with OS outcomes (fork/pipe success, child exit
status, bytes available on a pipe) supplied as event data.
-/

namespace Rtty

/-! ## JSON values and accessors

The engine consumes already-parsed JSON (`json_value` from json-parser).
Only the shapes the engine touches are modelled. -/

/-- Parsed JSON value, as consumed by `run_command` and the child branch
of `run_task`. -/
inductive JVal where
  | jstr (s : String)
  | jint (n : Int)
  | jarr (xs : List JVal)
  | jobj (fields : List (String × JVal))
  | jnull
deriving Repr

/-- Modelled from the spec: `json_get_value` (defined in the repository's
`utils.c`, which is not among the given sources) looks a field up in a
JSON object; a missing field, or a non-object receiver, yields NULL
(modelled as `none`). -/
def jsonGetValue : JVal → String → Option JVal
  | .jobj fields, name => (fields.find? (fun p => p.1 == name)).map Prod.snd
  | _, _ => none

/-- Modelled from the spec: `json_get_string` (repository `utils.c`, not
among the given sources) returns the string payload of a string-valued
field and NULL (`none`) otherwise. -/
def jsonGetString (v : JVal) (name : String) : Option String :=
  match jsonGetValue v name with
  | some (.jstr s) => some s
  | _ => none

/-- Field access through a possibly-NULL object pointer (`attrs` may be
NULL when the request has no `attrs` object). -/
def jsonGetStringO (v : Option JVal) (name : String) : Option String :=
  match v with
  | some w => jsonGetString w name
  | none => none

/-! ## Error codes and `cmderr2str` -/

/-- The `RTTY_CMD_ERR_*` codes used by `command.c` (declared in
`command.h`). -/
inductive CmdErr where
  | permit
  | notFound
  | nomem
  | syserr
  | respToobig
deriving Repr, DecidableEq

/-- Translation of `cmderr2str`. -/
def cmderr2str : CmdErr → String
  | .permit => "operation not permitted"
  | .notFound => "not found"
  | .nomem => "no mem"
  | .syserr => "sys error"
  | .respToobig => "stdout+stderr is too big"

/-! ## `login_test`

The OS services `getspnam` (shadow entry lookup, yielding the stored
`sp_pwdp` hash) and `crypt` are external collaborators and enter as
oracle functions. -/

/-- Translation of `login_test`: a NULL or empty username fails; an
unknown user fails; otherwise the password (NULL treated as `""`) is
crypted against the stored hash and compared to it. -/
def loginTest (getspnam : String → Option String) (cryptFn : String → String → String)
    (username password : Option String) : Bool :=
  match username with
  | none => false
  | some u =>
    if u = "" then false
    else
      match getspnam u with
      | none => false
      | some pwdp => cryptFn (password.getD "") pwdp == pwdp

/-! ## `cmd_lookup`

The filesystem check `stat(path) && S_ISREG` is an external collaborator
and enters as an oracle `fs : String → Bool`.  The scanning loop of
`cmd_lookup` walks the search string one character at a time with two
pointers `search` (start of the current candidate directory) and `p`
(scan position); it is translated with `rest` standing for the suffix of
the search string at `p` and `racc` for the reversed characters between
`search` and `p`.  Crucially, when a candidate would overflow the
`PATH_MAX`-sized buffer the C code `continue`s to `while (*p++)`
directly and never executes `search = p + 1`, so the separator character
is absorbed into the still-growing current component: this is mirrored
by consing the `':'` onto `racc` in the overflow branch. -/

/-- Buffer size of the static `path` array in `cmd_lookup`
(`PATH_MAX` from `limits.h` on Linux). -/
def PATH_MAX : Nat := 4096

/-- Translation of the `do { ... } while (*p++)` scanning loop of
`cmd_lookup`.  `clen` is `strlen(cmd) + 1` as computed by the C code. -/
def lookupLoop (fs : String → Bool) (cmd : String) (clen : Nat) :
    List Char → List Char → Option String
  | [], racc =>
      if racc.length + clen ≥ PATH_MAX then none
      else
        let cand := String.mk racc.reverse ++ "/" ++ cmd
        if fs cand then some cand else none
  | c :: rest, racc =>
      if c = ':' then
        if racc.length + clen ≥ PATH_MAX then
          lookupLoop fs cmd clen rest (c :: racc)
        else
          let cand := String.mk racc.reverse ++ "/" ++ cmd
          if fs cand then some cand else lookupLoop fs cmd clen rest []
      else lookupLoop fs cmd clen rest (c :: racc)

/-- Fallback search list used when `PATH` is unset. -/
def defaultSearch : String := "/bin:/usr/bin:/sbin:/usr/sbin"

/-- Translation of `cmd_lookup` for a non-NULL `cmd`: return `cmd`
unchanged if it names an existing regular file, else scan the
`:`-delimited `PATH` value (or the fixed fallback list). -/
def cmdLookup (fs : String → Bool) (envPATH : Option String) (cmd : String) : Option String :=
  if fs cmd then some cmd
  else lookupLoop fs cmd (cmd.length + 1) (envPATH.getD defaultSearch).data []

/-- The C `cmd_lookup` receives a raw `const char *`: its very first
step is `strlen(cmd) + 1`, so a NULL argument is undefined behaviour
(a crash), modelled as the outer `none`. -/
def cmdLookupC (fs : String → Bool) (envPATH : Option String) :
    Option String → Option (Option String)
  | none => none
  | some c => some (cmdLookup fs envPATH c)

/-! ## Reply encoder: `cmd_reply` buffer arithmetic

`cmd_reply` computes the raw length `len` of the two captured buffers,
allocates `ceil(len * 4.0 / 3) + 200` bytes, and formats
`\x7b"type":"cmd","token":"<token>","attrs":\x7b"code":<code>,"stdout":"<b64>","stderr":"<b64>"\x7d\x7d`
into it with `snprintf` and `b64_encode`.  The fixed characters of the
three format strings total `23 + 18 + 11`, `12` and `3` bytes; `%s`
inserts the token, `%d` the decimal exit code, and `snprintf` needs one
further byte for the terminating NUL in order not to truncate. -/

/-- Number of characters `b64_encode` produces for `n` input bytes
(`4 * ceil(n / 3)`, base64 with padding). -/
def b64EncLen (n : Nat) : Nat := 4 * ((n + 2) / 3)

/-- Number of characters `%d` prints for a natural number. -/
def decLen (n : Nat) : Nat := (Nat.toDigits 10 n).length

/-- Size of the buffer `cmd_reply` allocates for stdout-capture length
`olen` and stderr-capture length `elen`: `ceil(len * 4.0 / 3) + 200`
with `len = olen + elen` (the C code computes the ceiling with `double`
arithmetic; it is modelled exactly as `⌈4·len/3⌉`). -/
def cmdReplyAlloc (olen elen : Nat) : Nat := (4 * (olen + elen) + 2) / 3 + 200

/-- Number of bytes the fully formatted success reply needs (all fixed
format characters, the token, the decimal exit code, both base64
expansions, and the terminating NUL written by the last `snprintf`). -/
def cmdReplyNeeded (token : String) (code : Nat) (olen elen : Nat) : Nat :=
  23 + token.length + 18 + decLen code + 11 + b64EncLen olen + 12 + b64EncLen elen + 3 + 1

/-- Outcome of one `cmd_reply` call. -/
inductive ReplySent where
  | success (token : String) (code : Nat) (stdoutRaw stderrRaw : List Nat)
  | failure (token : String) (e : CmdErr)
deriving Repr, DecidableEq

/-- Control flow of `cmd_reply`: if the `calloc` of the sized buffer
fails, `cmd_err_reply(ws, token, RTTY_CMD_ERR_NOMEM)` is sent instead
of the success reply. -/
def cmdReply (callocOk : Bool) (token : String) (code : Nat) (ob eb : List Nat) : ReplySent :=
  if callocOk then .success token code ob eb
  else .failure token .nomem

/-! ## Child branch of `run_task`

After `fork()` returns 0, the child closes the pipe read ends, redirects
stdout/stderr, builds the argument vector (a `calloc` failure exits with
status 1), applies the `env` overrides, and calls `execv`.  The C
`case 0:` block has no statement after `execv`: if `execv` fails and
returns, control falls off the end of the block and continues at the
`default:` label, i.e. the parent-side logic (closing the write ends,
installing the child/io/timer watchers, `nrunning++`, returning to the
event loop) runs inside the child process. -/

/-- What becomes of the forked child. -/
inductive ChildResult where
  | exitedWith (code : Nat)
  | imageReplaced
  | fellThroughToParentLogic
deriving Repr, DecidableEq

/-- Argument vector the child builds: `args[0]` is the resolved command,
followed by each element of the request's `params` array (string
elements yield their payload, non-strings a NULL pointer, exactly as
`json_get_array_string` returns), and the terminating NULL slot left by
`calloc`. -/
def childArgv (cmd : String) (params : Option (List JVal)) : List (Option String) :=
  some cmd ::
    (match params with
     | some xs => xs.map (fun v => match v with | .jstr s => some s | _ => none)
     | none => []) ++ [none]

/-- Control flow of the child branch of `run_task`. -/
def childRun (argsCallocOk : Bool) (execvOk : Bool) : ChildResult :=
  if argsCallocOk = false then .exitedWith 1
  else if execvOk then .imageReplaced
  else .fellThroughToParentLogic

/-! ## Request entry point: `run_command` and `add_task` admission

`run_command` and the pre-admission part of `add_task` are translated
into a function from the parsed request and the relevant OS outcomes to
a record of what was sent, whether `json_value_free(msg)` ran on this
path, and whether a task object was created. -/

/-- External collaborators and OS outcomes consumed on the
request-entry path. -/
structure Oracle where
  getspnam : String → Option String
  cryptFn : String → String → String
  isRegFile : String → Bool
  envPATH : Option String
  /-- outcome of the `calloc` in `add_task` -/
  taskCallocOk : Bool

/-- Error reply as sent by `cmd_err_reply` (the token is interpolated
with `%s`; a NULL token is kept as `none`). -/
inductive Reply where
  | err (token : Option String) (e : CmdErr)
deriving Repr, DecidableEq

/-- Observable result of one `run_command` invocation. -/
structure RunCmdRes where
  replies : List Reply
  /-- number of times `json_value_free(msg)` ran on this path -/
  payloadFreed : Nat
  /-- a `struct task` was successfully allocated and admitted -/
  taskCreated : Bool
  /-- undefined behaviour was reached (`strlen(NULL)`) -/
  crashed : Bool
deriving Repr, DecidableEq

/-- Translation of the pre-admission part of `add_task`: on `calloc`
failure it sends a NOMEM error reply and returns — without freeing the
request payload `msg`. -/
def addTask (o : Oracle) (token : Option String) : RunCmdRes :=
  if o.taskCallocOk then
    { replies := [], payloadFreed := 0, taskCreated := true, crashed := false }
  else
    { replies := [.err token .nomem], payloadFreed := 0, taskCreated := false, crashed := false }

/-- The rejection condition of `run_command`:
`!username || !username[0] || !login_test(username, password)`. -/
def authRejected (o : Oracle) (msg : JVal) : Prop :=
  jsonGetStringO (jsonGetValue msg "attrs") "username" = none ∨
  jsonGetStringO (jsonGetValue msg "attrs") "username" = some "" ∨
  loginTest o.getspnam o.cryptFn (jsonGetStringO (jsonGetValue msg "attrs") "username")
    (jsonGetStringO (jsonGetValue msg "attrs") "password") = false

instance (o : Oracle) (msg : JVal) : Decidable (authRejected o msg) := by
  unfold authRejected
  infer_instance

/-- Translation of `run_command`. -/
def runCommand (o : Oracle) (msg : JVal) : RunCmdRes :=
  let attrs := jsonGetValue msg "attrs"
  let token := jsonGetString msg "token"
  if authRejected o msg then
    { replies := [.err token .permit], payloadFreed := 1, taskCreated := false, crashed := false }
  else
    match cmdLookupC o.isRegFile o.envPATH (jsonGetStringO attrs "cmd") with
    | none =>
        { replies := [], payloadFreed := 0, taskCreated := false, crashed := true }
    | some none =>
        { replies := [.err token .notFound], payloadFreed := 1, taskCreated := false, crashed := false }
    | some (some _) => addTask o token

/-! ## Scheduler state machine

`command.c` keeps two pieces of global scheduler state — `nrunning`
(a C `int`) and the FIFO list `task_pending` — plus, per running task,
the libev watchers and the two capture buffers.  The lifecycle is
translated into a step function on an explicit state:

* `Ev.admitted ok` — `add_task` runs for a freshly created task (the task
  id is the admission sequence number); `ok` is the combined outcome of
  `pipe2`/`fork` should `run_task` be invoked.
* `Ev.childExit tid code ok` — the `ev_child` watcher of running task
  `tid` fires with exit code `code`; `ok` is the `pipe2`/`fork` outcome
  for the promotion of the pending head, if any.
* `Ev.timeout tid` — the one-shot `ev_timer` of running task `tid`
  fires.
* `Ev.ioOut` / `Ev.ioErr` — a pipe-readable watcher fires;
  `bytes` are the bytes `buffer_put_fd` drains from the pipe and `eof`
  is the end-of-stream flag it reports (which the callbacks ignore).

Events whose watcher does not exist (an id that is not running) leave
the state unchanged: a libev watcher only fires while installed. -/

/-- One running task: its admission id, the `ev_timer_init` parameters
of its timer (`after`, `repeat`), its two capture buffers, and whether
its stdout/stderr watchers are installed with their descriptors open. -/
structure RTask where
  id : Nat
  timerAfter : Nat
  timerRepeat : Nat
  ob : List Nat
  eb : List Nat
  iooActive : Bool
  ioeActive : Bool
deriving Repr, DecidableEq

/-- Reply sent on the lifecycle path, tagged by task id. -/
inductive SReply where
  | success (tid : Nat) (code : Nat)
  | failure (tid : Nat) (e : CmdErr)
deriving Repr, DecidableEq

/-- Scheduler state: `nrunning` is kept as an integer exactly like the
C `int`; `pending` and `promoted` hold task ids (head of `pending` is
the oldest); `promoted` logs, in order, every id popped from the
pending queue and handed to `run_task`; `freed` logs every task whose
`task_free` ran (which releases its buffers, watchers and owned
payload); `nextId` is the next admission sequence number. -/
structure St where
  nrunning : Int
  running : List RTask
  pending : List Nat
  promoted : List Nat
  replies : List SReply
  freed : List Nat
  nextId : Nat
deriving Repr, DecidableEq

/-- Initial scheduler state (`static int nrunning;` and an empty
`task_pending` list). -/
def initSt : St :=
  { nrunning := 0, running := [], pending := [], promoted := [], replies := [],
    freed := [], nextId := 0 }

/-- Fresh running-task record as installed by the parent branch of
`run_task`: timer initialised to the fixed constant
(`RTTY_CMD_EXEC_TIMEOUT`, here the parameter `tmo`) with repeat 0,
empty buffers, both io watchers active. -/
def newTask (tmo tid : Nat) : RTask :=
  { id := tid, timerAfter := tmo, timerRepeat := 0, ob := [], eb := [],
    iooActive := true, ioeActive := true }

/-- Effect of `run_task t`: on `pipe2`/`fork` success the parent
installs the watchers and increments `nrunning`; on failure it sends a
SYSERR error reply and frees the task (which releases the payload),
leaving `nrunning` untouched. -/
def runTaskStep (tmo tid : Nat) (ok : Bool) (s : St) : St :=
  if ok then
    { s with running := newTask tmo tid :: s.running, nrunning := s.nrunning + 1 }
  else
    { s with replies := s.replies ++ [.failure tid .syserr], freed := s.freed ++ [tid] }

/-- Whether a child/timer/io watcher for task `tid` exists, i.e. `tid`
is running. -/
def taskRunning (s : St) (tid : Nat) : Bool :=
  s.running.any (fun t => t.id == tid)

/-- First half of `ev_child_exit`: send the success reply with the exit
code, `task_free` the task, decrement `nrunning`. -/
def reapTask (tid code : Nat) (s : St) : St :=
  { s with replies := s.replies ++ [.success tid code],
           running := s.running.eraseP (fun t => t.id == tid),
           freed := s.freed ++ [tid],
           nrunning := s.nrunning - 1 }

/-- Second half of `ev_child_exit`: if the pending list is non-empty,
unlink its first entry and `run_task` it. -/
def promoteHead (tmo : Nat) (ok : Bool) (s : St) : St :=
  match s.pending with
  | [] => s
  | h :: rest =>
      runTaskStep tmo h ok { s with pending := rest, promoted := s.promoted ++ [h] }

/-- Effect of `ev_timer_cb`: `task_free` and decrement `nrunning` — no
reply is sent and the pending queue is not touched. -/
def timeoutStep (tid : Nat) (s : St) : St :=
  { s with running := s.running.eraseP (fun t => t.id == tid),
           freed := s.freed ++ [tid],
           nrunning := s.nrunning - 1 }

/-- Effect of `ev_io_stdout_cb`: `buffer_put_fd` appends the available
bytes to the stdout capture buffer.  The reported end-of-stream flag is
ignored — the watcher stays installed and the descriptor open. -/
def ioOutStep (tid : Nat) (bytes : List Nat) (s : St) : St :=
  { s with running :=
      s.running.map (fun t => if t.id == tid then { t with ob := t.ob ++ bytes } else t) }

/-- Effect of `ev_io_stderr_cb`, symmetric to `ioOutStep`. -/
def ioErrStep (tid : Nat) (bytes : List Nat) (s : St) : St :=
  { s with running :=
      s.running.map (fun t => if t.id == tid then { t with eb := t.eb ++ bytes } else t) }

/-- Lifecycle events (OS outcomes carried as data). -/
inductive Ev where
  | admitted (spawnOk : Bool)
  | childExit (tid : Nat) (code : Nat) (spawnOk : Bool)
  | timeout (tid : Nat)
  | ioOut (tid : Nat) (bytes : List Nat) (eof : Bool)
  | ioErr (tid : Nat) (bytes : List Nat) (eof : Bool)
deriving Repr, DecidableEq

/-- One engine step.  `max` is `RTTY_CMD_MAX_RUNNING`, `tmo` is
`RTTY_CMD_EXEC_TIMEOUT` (both fixed constants from `command.h`). -/
def step (max tmo : Nat) (s : St) : Ev → St
  | .admitted ok =>
      if s.nrunning < (max : Int) then
        runTaskStep tmo s.nextId ok { s with nextId := s.nextId + 1 }
      else
        { s with pending := s.pending ++ [s.nextId], nextId := s.nextId + 1 }
  | .childExit tid code ok =>
      if taskRunning s tid then promoteHead tmo ok (reapTask tid code s) else s
  | .timeout tid =>
      if taskRunning s tid then timeoutStep tid s else s
  | .ioOut tid bytes _ =>
      if taskRunning s tid then ioOutStep tid bytes s else s
  | .ioErr tid bytes _ =>
      if taskRunning s tid then ioErrStep tid bytes s else s

/-- State after a sequence of events from the initial state. -/
def runEvs (max tmo : Nat) (evs : List Ev) : St :=
  evs.foldl (step max tmo) initSt

/-! ## Reachable-state invariant -/

/-- Invariant of every reachable scheduler state. -/
structure Inv (max tmo : Nat) (s : St) : Prop where
  count : s.nrunning = (s.running.length : Int)
  bound : s.running.length ≤ max
  pendSorted : s.pending.Pairwise (· < ·)
  pendLt : ∀ x ∈ s.pending, x < s.nextId
  promSorted : s.promoted.Pairwise (· < ·)
  promPend : ∀ a ∈ s.promoted, ∀ b ∈ s.pending, a < b
  promLt : ∀ a ∈ s.promoted, a < s.nextId
  runLt : ∀ t ∈ s.running, t.id < s.nextId
  runNodup : (s.running.map RTask.id).Nodup
  runPend : ∀ t ∈ s.running, ∀ x ∈ s.pending, t.id ≠ x
  timers : ∀ t ∈ s.running, t.timerAfter = tmo ∧ t.timerRepeat = 0
  ioActive : ∀ t ∈ s.running, t.iooActive = true ∧ t.ioeActive = true

theorem inv_initSt (max tmo : Nat) : Inv max tmo initSt := by
  constructor <;> simp [initSt]

theorem inv_runTaskStep (max tmo tid : Nat) (ok : Bool) (s : St) (h : Inv max tmo s)
    (hlen : ok = true → s.running.length < max)
    (hid : ∀ t ∈ s.running, t.id ≠ tid)
    (hpend : ∀ x ∈ s.pending, tid ≠ x)
    (hlt : tid < s.nextId) :
    Inv max tmo (runTaskStep tmo tid ok s) := by
  cases ok with
  | false =>
      have heq : runTaskStep tmo tid false s =
          { s with replies := s.replies ++ [.failure tid .syserr],
                   freed := s.freed ++ [tid] } := rfl
      rw [heq]
      exact ⟨h.count, h.bound, h.pendSorted, h.pendLt, h.promSorted, h.promPend, h.promLt,
        h.runLt, h.runNodup, h.runPend, h.timers, h.ioActive⟩
  | true =>
      have heq : runTaskStep tmo tid true s =
          { s with running := newTask tmo tid :: s.running, nrunning := s.nrunning + 1 } := rfl
      rw [heq]
      refine ⟨?_, ?_, h.pendSorted, h.pendLt, h.promSorted, h.promPend, h.promLt, ?_, ?_, ?_, ?_, ?_⟩
      · have := h.count
        simp only [List.length_cons]
        omega
      · have := hlen rfl
        simp only [List.length_cons]
        omega
      · intro t ht
        rcases List.mem_cons.mp ht with rfl | ht
        · exact hlt
        · exact h.runLt t ht
      · simp only [newTask, List.map_cons, List.nodup_cons]
        refine ⟨?_, h.runNodup⟩
        intro hmem
        rcases List.mem_map.mp hmem with ⟨t, ht, hteq⟩
        exact hid t ht hteq
      · intro t ht x hx
        rcases List.mem_cons.mp ht with rfl | ht
        · exact hpend x hx
        · exact h.runPend t ht x hx
      · intro t ht
        rcases List.mem_cons.mp ht with rfl | ht
        · exact ⟨rfl, rfl⟩
        · exact h.timers t ht
      · intro t ht
        rcases List.mem_cons.mp ht with rfl | ht
        · exact ⟨rfl, rfl⟩
        · exact h.ioActive t ht

/-- A running id witnesses a member of `running` satisfying the erase
predicate. -/
theorem taskRunning_exists {s : St} {tid : Nat} (h : taskRunning s tid = true) :
    ∃ t ∈ s.running, t.id = tid := by
  rcases List.any_eq_true.mp h with ⟨t, ht, hp⟩
  exact ⟨t, ht, by simpa using hp⟩

theorem inv_reapTask (max tmo tid code : Nat) (s : St) (h : Inv max tmo s)
    (hrun : taskRunning s tid = true) :
    Inv max tmo (reapTask tid code s) := by
  rcases taskRunning_exists hrun with ⟨t, ht, hteq⟩
  have hperase : (s.running.eraseP (fun t => t.id == tid)).length = s.running.length - 1 :=
    List.length_eraseP_of_mem ht (by simpa using hteq)
  have hlen1 : 1 ≤ s.running.length := List.length_pos.mpr (List.ne_nil_of_mem ht)
  have hsub : List.Sublist (s.running.eraseP (fun t => t.id == tid)) s.running :=
    List.eraseP_sublist _
  refine ⟨?_, ?_, h.pendSorted, h.pendLt, h.promSorted, h.promPend, h.promLt, ?_, ?_, ?_, ?_, ?_⟩
  · simp only [reapTask, hperase]
    rw [h.count]
    omega
  · have := h.bound
    simp only [reapTask, hperase]
    omega
  · exact fun t ht => h.runLt t (hsub.subset ht)
  · exact (h.runNodup.sublist (hsub.map RTask.id))
  · exact fun t ht => h.runPend t (hsub.subset ht)
  · exact fun t ht => h.timers t (hsub.subset ht)
  · exact fun t ht => h.ioActive t (hsub.subset ht)

theorem inv_promoteHead (max tmo : Nat) (ok : Bool) (s : St) (h : Inv max tmo s)
    (hlen : s.pending ≠ [] → s.running.length < max) :
    Inv max tmo (promoteHead tmo ok s) := by
  cases hp : s.pending with
  | nil => simpa [promoteHead, hp] using h
  | cons hd rest =>
      have hhd : hd ∈ s.pending := by simp [hp]
      have hrest : ∀ b ∈ rest, hd < b := by
        have := h.pendSorted
        rw [hp, List.pairwise_cons] at this
        exact this.1
      have hrestSorted : rest.Pairwise (· < ·) := by
        have := h.pendSorted
        rw [hp, List.pairwise_cons] at this
        exact this.2
      simp only [promoteHead, hp]
      apply inv_runTaskStep
      · -- the intermediate state (pending popped, promoted extended) keeps the invariant
        refine ⟨h.count, h.bound, hrestSorted, ?_, ?_, ?_, ?_, h.runLt, h.runNodup, ?_, h.timers,
          h.ioActive⟩
        · intro x hx
          exact h.pendLt x (by simp [hp, hx])
        · rw [List.pairwise_append]
          refine ⟨h.promSorted, List.pairwise_singleton _ _, ?_⟩
          intro a ha b hb
          simp only [List.mem_singleton] at hb
          rw [hb]
          exact h.promPend a ha hd hhd
        · intro a ha b hb
          rcases List.mem_append.mp ha with ha | ha
          · exact h.promPend a ha b (by simp [hp, hb])
          · simp only [List.mem_singleton] at ha
            rw [ha]
            exact hrest b hb
        · intro a ha
          rcases List.mem_append.mp ha with ha | ha
          · exact h.promLt a ha
          · simp only [List.mem_singleton] at ha
            rw [ha]
            exact h.pendLt hd hhd
        · intro t ht x hx
          exact h.runPend t ht x (by simp [hp, hx])
      · exact fun _ => hlen (by simp [hp])
      · exact fun t ht => h.runPend t ht hd hhd
      · intro x hx
        exact Nat.ne_of_lt (hrest x hx)
      · exact h.pendLt hd hhd

theorem inv_timeoutStep (max tmo tid : Nat) (s : St) (h : Inv max tmo s)
    (hrun : taskRunning s tid = true) :
    Inv max tmo (timeoutStep tid s) := by
  rcases taskRunning_exists hrun with ⟨t, ht, hteq⟩
  have hperase : (s.running.eraseP (fun t => t.id == tid)).length = s.running.length - 1 :=
    List.length_eraseP_of_mem ht (by simpa using hteq)
  have hlen1 : 1 ≤ s.running.length := List.length_pos.mpr (List.ne_nil_of_mem ht)
  have hsub : List.Sublist (s.running.eraseP (fun t => t.id == tid)) s.running :=
    List.eraseP_sublist _
  refine ⟨?_, ?_, h.pendSorted, h.pendLt, h.promSorted, h.promPend, h.promLt, ?_, ?_, ?_, ?_, ?_⟩
  · simp only [timeoutStep, hperase]
    rw [h.count]
    omega
  · have := h.bound
    simp only [timeoutStep, hperase]
    omega
  · exact fun t ht => h.runLt t (hsub.subset ht)
  · exact (h.runNodup.sublist (hsub.map RTask.id))
  · exact fun t ht => h.runPend t (hsub.subset ht)
  · exact fun t ht => h.timers t (hsub.subset ht)
  · exact fun t ht => h.ioActive t (hsub.subset ht)

/-- The io updaters change only the capture buffers of one task. -/
theorem ioUpdate_fields (tid : Nat) (bytes : List Nat) (t : RTask) :
    (if t.id == tid then { t with ob := t.ob ++ bytes } else t).id = t.id ∧
    (if t.id == tid then { t with ob := t.ob ++ bytes } else t).timerAfter = t.timerAfter ∧
    (if t.id == tid then { t with ob := t.ob ++ bytes } else t).timerRepeat = t.timerRepeat ∧
    (if t.id == tid then { t with ob := t.ob ++ bytes } else t).iooActive = t.iooActive ∧
    (if t.id == tid then { t with ob := t.ob ++ bytes } else t).ioeActive = t.ioeActive := by
  split <;> simp

theorem ioUpdateE_fields (tid : Nat) (bytes : List Nat) (t : RTask) :
    (if t.id == tid then { t with eb := t.eb ++ bytes } else t).id = t.id ∧
    (if t.id == tid then { t with eb := t.eb ++ bytes } else t).timerAfter = t.timerAfter ∧
    (if t.id == tid then { t with eb := t.eb ++ bytes } else t).timerRepeat = t.timerRepeat ∧
    (if t.id == tid then { t with eb := t.eb ++ bytes } else t).iooActive = t.iooActive ∧
    (if t.id == tid then { t with eb := t.eb ++ bytes } else t).ioeActive = t.ioeActive := by
  split <;> simp

theorem inv_ioOutStep (max tmo tid : Nat) (bytes : List Nat) (s : St) (h : Inv max tmo s) :
    Inv max tmo (ioOutStep tid bytes s) := by
  have hids : (s.running.map (fun t => if t.id == tid then { t with ob := t.ob ++ bytes } else t)).map
      RTask.id = s.running.map RTask.id := by
    rw [List.map_map]
    exact List.map_congr_left fun t _ => (ioUpdate_fields tid bytes t).1
  refine ⟨?_, ?_, h.pendSorted, h.pendLt, h.promSorted, h.promPend, h.promLt, ?_, ?_, ?_, ?_, ?_⟩
  · simpa [ioOutStep] using h.count
  · simpa [ioOutStep] using h.bound
  · intro t ht
    simp only [ioOutStep] at ht
    rcases List.mem_map.mp ht with ⟨u, hu, rfl⟩
    rw [(ioUpdate_fields tid bytes u).1]
    exact h.runLt u hu
  · show ((s.running.map _).map RTask.id).Nodup
    rw [hids]
    exact h.runNodup
  · intro t ht x hx
    simp only [ioOutStep] at ht
    rcases List.mem_map.mp ht with ⟨u, hu, rfl⟩
    rw [(ioUpdate_fields tid bytes u).1]
    exact h.runPend u hu x hx
  · intro t ht
    simp only [ioOutStep] at ht
    rcases List.mem_map.mp ht with ⟨u, hu, rfl⟩
    rcases ioUpdate_fields tid bytes u with ⟨-, h2, h3, -, -⟩
    rw [h2, h3]
    exact h.timers u hu
  · intro t ht
    simp only [ioOutStep] at ht
    rcases List.mem_map.mp ht with ⟨u, hu, rfl⟩
    rcases ioUpdate_fields tid bytes u with ⟨-, -, -, h4, h5⟩
    rw [h4, h5]
    exact h.ioActive u hu

theorem inv_ioErrStep (max tmo tid : Nat) (bytes : List Nat) (s : St) (h : Inv max tmo s) :
    Inv max tmo (ioErrStep tid bytes s) := by
  have hids : (s.running.map (fun t => if t.id == tid then { t with eb := t.eb ++ bytes } else t)).map
      RTask.id = s.running.map RTask.id := by
    rw [List.map_map]
    exact List.map_congr_left fun t _ => (ioUpdateE_fields tid bytes t).1
  refine ⟨?_, ?_, h.pendSorted, h.pendLt, h.promSorted, h.promPend, h.promLt, ?_, ?_, ?_, ?_, ?_⟩
  · simpa [ioErrStep] using h.count
  · simpa [ioErrStep] using h.bound
  · intro t ht
    simp only [ioErrStep] at ht
    rcases List.mem_map.mp ht with ⟨u, hu, rfl⟩
    rw [(ioUpdateE_fields tid bytes u).1]
    exact h.runLt u hu
  · show ((s.running.map _).map RTask.id).Nodup
    rw [hids]
    exact h.runNodup
  · intro t ht x hx
    simp only [ioErrStep] at ht
    rcases List.mem_map.mp ht with ⟨u, hu, rfl⟩
    rw [(ioUpdateE_fields tid bytes u).1]
    exact h.runPend u hu x hx
  · intro t ht
    simp only [ioErrStep] at ht
    rcases List.mem_map.mp ht with ⟨u, hu, rfl⟩
    rcases ioUpdateE_fields tid bytes u with ⟨-, h2, h3, -, -⟩
    rw [h2, h3]
    exact h.timers u hu
  · intro t ht
    simp only [ioErrStep] at ht
    rcases List.mem_map.mp ht with ⟨u, hu, rfl⟩
    rcases ioUpdateE_fields tid bytes u with ⟨-, -, -, h4, h5⟩
    rw [h4, h5]
    exact h.ioActive u hu

theorem inv_step (max tmo : Nat) (s : St) (e : Ev) (h : Inv max tmo s) :
    Inv max tmo (step max tmo s e) := by
  cases e with
  | admitted ok =>
      simp only [step]
      split
      · next hguard =>
          apply inv_runTaskStep
          · -- bumping `nextId` preserves the invariant
            refine ⟨h.count, h.bound, h.pendSorted, ?_, h.promSorted, h.promPend, ?_, ?_,
              h.runNodup, h.runPend, h.timers, h.ioActive⟩
            · exact fun x hx => Nat.lt_succ_of_lt (h.pendLt x hx)
            · exact fun a ha => Nat.lt_succ_of_lt (h.promLt a ha)
            · exact fun t ht => Nat.lt_succ_of_lt (h.runLt t ht)
          · intro _
            show s.running.length < max
            have hc := h.count
            omega
          · exact fun t ht => Nat.ne_of_lt (h.runLt t ht)
          · exact fun x hx => (Nat.ne_of_lt (h.pendLt x hx)).symm
          · exact Nat.lt_succ_self _
      · next hguard =>
          refine ⟨h.count, h.bound, ?_, ?_, h.promSorted, ?_, ?_, ?_, h.runNodup, ?_, h.timers,
            h.ioActive⟩
          · rw [List.pairwise_append]
            refine ⟨h.pendSorted, List.pairwise_singleton _ _, ?_⟩
            intro a ha b hb
            simp only [List.mem_singleton] at hb
            subst hb
            exact h.pendLt a ha
          · intro x hx
            rcases List.mem_append.mp hx with hx | hx
            · exact Nat.lt_succ_of_lt (h.pendLt x hx)
            · simp only [List.mem_singleton] at hx
              subst hx
              exact Nat.lt_succ_self _
          · intro a ha b hb
            rcases List.mem_append.mp hb with hb | hb
            · exact h.promPend a ha b hb
            · simp only [List.mem_singleton] at hb
              subst hb
              exact h.promLt a ha
          · exact fun a ha => Nat.lt_succ_of_lt (h.promLt a ha)
          · exact fun t ht => Nat.lt_succ_of_lt (h.runLt t ht)
          · intro t ht x hx
            rcases List.mem_append.mp hx with hx | hx
            · exact h.runPend t ht x hx
            · simp only [List.mem_singleton] at hx
              subst hx
              exact Nat.ne_of_lt (h.runLt t ht)
  | childExit tid code ok =>
      simp only [step]
      split
      · next hrun =>
          apply inv_promoteHead
          · exact inv_reapTask max tmo tid code s h hrun
          · intro _
            rcases taskRunning_exists hrun with ⟨t, ht, hteq⟩
            have hperase : (s.running.eraseP (fun t => t.id == tid)).length =
                s.running.length - 1 :=
              List.length_eraseP_of_mem ht (by simpa using hteq)
            have hlen1 : 1 ≤ s.running.length := List.length_pos.mpr (List.ne_nil_of_mem ht)
            have := h.bound
            simp only [reapTask, hperase]
            omega
      · exact h
  | timeout tid =>
      simp only [step]
      split
      · next hrun => exact inv_timeoutStep max tmo tid s h hrun
      · exact h
  | ioOut tid bytes eof =>
      simp only [step]
      split
      · exact inv_ioOutStep max tmo tid bytes s h
      · exact h
  | ioErr tid bytes eof =>
      simp only [step]
      split
      · exact inv_ioErrStep max tmo tid bytes s h
      · exact h

theorem inv_foldl (max tmo : Nat) (evs : List Ev) :
    ∀ s, Inv max tmo s → Inv max tmo (evs.foldl (step max tmo) s) := by
  induction evs with
  | nil => exact fun s h => h
  | cons e rest ih =>
      intro s h
      exact ih _ (inv_step max tmo s e h)

theorem inv_runEvs (max tmo : Nat) (evs : List Ev) : Inv max tmo (runEvs max tmo evs) :=
  inv_foldl max tmo evs initSt (inv_initSt max tmo)

/-! ## Helper equations on single steps -/

theorem promoteHead_cons (tmo : Nat) (ok : Bool) (s : St) (hd : Nat) (rest : List Nat)
    (hp : s.pending = hd :: rest) :
    promoteHead tmo ok s =
      runTaskStep tmo hd ok { s with pending := rest, promoted := s.promoted ++ [hd] } := by
  simp only [promoteHead, hp]

/-- Erasing the unique running task with a given id leaves no running
task with that id. -/
theorem erased_not_running (l : List RTask) (hnd : (l.map RTask.id).Nodup) (tid : Nat) :
    (l.eraseP (fun t => t.id == tid)).any (fun t => t.id == tid) = false := by
  induction l with
  | nil => rfl
  | cons t ts ih =>
      simp only [List.map_cons, List.nodup_cons] at hnd
      by_cases hc : t.id = tid
      · rw [List.eraseP_cons_of_pos (by simpa using hc)]
        by_contra hany
        rw [Bool.not_eq_false] at hany
        rcases List.any_eq_true.mp hany with ⟨u, hu, hps⟩
        have hut : u.id = tid := by simpa using hps
        exact hnd.1 (List.mem_map.mpr ⟨u, hu, by rw [hut, hc]⟩)
      · rw [List.eraseP_cons_of_neg (by simpa using hc)]
        simp only [List.any_cons, ih hnd.2, Bool.or_false]
        simpa using hc

/-! ## Claim theorems for the scheduler -/

/-- C1: for every sequence of admitted command requests (and whatever
completion, timeout and io events the OS interleaves), `nrunning` stays
within `0 ≤ nrunning ≤ RTTY_CMD_MAX_RUNNING`; and `add_task` on a
successfully spawning task starts it immediately (installing it as a
running task) and increments `nrunning` exactly when
`nrunning < RTTY_CMD_MAX_RUNNING`, while otherwise it appends the task
to the tail of the pending queue without starting it. -/
theorem c1_bounded_admission (max tmo : Nat) (evs : List Ev) :
    (0 ≤ (runEvs max tmo evs).nrunning ∧ (runEvs max tmo evs).nrunning ≤ (max : Int)) ∧
    (if (runEvs max tmo evs).nrunning < (max : Int) then
        (step max tmo (runEvs max tmo evs) (.admitted true)).nrunning =
            (runEvs max tmo evs).nrunning + 1 ∧
        (step max tmo (runEvs max tmo evs) (.admitted true)).running =
            newTask tmo (runEvs max tmo evs).nextId :: (runEvs max tmo evs).running ∧
        (step max tmo (runEvs max tmo evs) (.admitted true)).pending =
            (runEvs max tmo evs).pending
      else
        (step max tmo (runEvs max tmo evs) (.admitted true)).nrunning =
            (runEvs max tmo evs).nrunning ∧
        (step max tmo (runEvs max tmo evs) (.admitted true)).running =
            (runEvs max tmo evs).running ∧
        (step max tmo (runEvs max tmo evs) (.admitted true)).pending =
            (runEvs max tmo evs).pending ++ [(runEvs max tmo evs).nextId]) := by
  constructor
  · have h := inv_runEvs max tmo evs
    have hc := h.count
    have hb := h.bound
    omega
  · by_cases hguard : (runEvs max tmo evs).nrunning < (max : Int)
    · rw [if_pos hguard]
      simp [step, runTaskStep, hguard]
    · rw [if_neg hguard]
      simp [step, runTaskStep, hguard]

/-- C2: queued tasks are promoted in strict FIFO order — the log of ids
popped from the pending queue and handed to `run_task` is strictly
increasing in admission order, so a task enqueued earlier starts no
later than one enqueued after it; and on a child-exit completion the
engine decrements `nrunning` and, when the pending queue is non-empty,
pops its head and starts it immediately, restoring `nrunning` to its
previous value. -/
theorem c2_fifo_promotion (max tmo : Nat) (evs : List Ev) :
    (runEvs max tmo evs).promoted.Pairwise (· < ·) ∧
    (∀ tid code hd rest, taskRunning (runEvs max tmo evs) tid = true →
      (runEvs max tmo evs).pending = hd :: rest →
      (step max tmo (runEvs max tmo evs) (.childExit tid code true)).nrunning =
          (runEvs max tmo evs).nrunning ∧
      (step max tmo (runEvs max tmo evs) (.childExit tid code true)).pending = rest ∧
      (step max tmo (runEvs max tmo evs) (.childExit tid code true)).promoted =
          (runEvs max tmo evs).promoted ++ [hd]) := by
  constructor
  · exact (inv_runEvs max tmo evs).promSorted
  · intro tid code hd rest hrun hpend
    have h1 : step max tmo (runEvs max tmo evs) (.childExit tid code true) =
        promoteHead tmo true (reapTask tid code (runEvs max tmo evs)) := by
      simp only [step, hrun, if_true]
    have h2 : (reapTask tid code (runEvs max tmo evs)).pending = hd :: rest := hpend
    rw [h1, promoteHead_cons tmo true _ hd rest h2]
    refine ⟨?_, rfl, rfl⟩
    show ((runEvs max tmo evs).nrunning - 1) + 1 = (runEvs max tmo evs).nrunning
    omega

/-- Witness for `c2_fifo_promotion`: with `maxRunning = 1`, two
back-to-back admissions leave task 1 pending; the exit of task 0
promotes it while keeping `nrunning` at its previous value. -/
theorem c2_fifo_promotion_witness :
    (step 1 30 (runEvs 1 30 [Ev.admitted true, Ev.admitted true]) (Ev.childExit 0 0 true)).promoted =
      (runEvs 1 30 [Ev.admitted true, Ev.admitted true]).promoted ++ [1] :=
  ((c2_fifo_promotion 1 30 [Ev.admitted true, Ev.admitted true]).2 0 0 1 [] (by decide)
    (by decide)).2.2

/-- C3: when the fixed-duration timeout of a running task fires, the
handler tears the task down (frees it, releasing buffers and payload,
and removes all its watchers) and decrements `nrunning`, sends no
reply, and does not promote the head of the pending queue; moreover in
every reachable state every running task's timer holds the fixed
engine-wide constant set at task start with repeat 0 — no event ever
refreshes it. -/
theorem c3_timeout_teardown (max tmo : Nat) (evs : List Ev) (tid : Nat)
    (hrun : taskRunning (runEvs max tmo evs) tid = true) :
    (∀ t ∈ (runEvs max tmo evs).running, t.timerAfter = tmo ∧ t.timerRepeat = 0) ∧
    (step max tmo (runEvs max tmo evs) (.timeout tid)).replies = (runEvs max tmo evs).replies ∧
    (step max tmo (runEvs max tmo evs) (.timeout tid)).pending = (runEvs max tmo evs).pending ∧
    (step max tmo (runEvs max tmo evs) (.timeout tid)).promoted =
        (runEvs max tmo evs).promoted ∧
    (step max tmo (runEvs max tmo evs) (.timeout tid)).nrunning =
        (runEvs max tmo evs).nrunning - 1 ∧
    (step max tmo (runEvs max tmo evs) (.timeout tid)).freed =
        (runEvs max tmo evs).freed ++ [tid] ∧
    taskRunning (step max tmo (runEvs max tmo evs) (.timeout tid)) tid = false := by
  have hinv := inv_runEvs max tmo evs
  have hstep : step max tmo (runEvs max tmo evs) (.timeout tid) =
      timeoutStep tid (runEvs max tmo evs) := by
    simp only [step, hrun, if_true]
  refine ⟨hinv.timers, ?_, ?_, ?_, ?_, ?_, ?_⟩ <;> rw [hstep]
  · rfl
  · rfl
  · rfl
  · rfl
  · rfl
  · exact erased_not_running _ hinv.runNodup tid

/-- Witness for `c3_timeout_teardown`: the timeout of the only running
task sends no reply. -/
theorem c3_timeout_teardown_witness :
    (step 5 30 (runEvs 5 30 [Ev.admitted true]) (Ev.timeout 0)).replies =
      (runEvs 5 30 [Ev.admitted true]).replies ∧
    (step 5 30 (runEvs 5 30 [Ev.admitted true]) (Ev.timeout 0)).freed =
      (runEvs 5 30 [Ev.admitted true]).freed ++ [0] :=
  ⟨(c3_timeout_teardown 5 30 [Ev.admitted true] 0 (by decide)).2.1,
   (c3_timeout_teardown 5 30 [Ev.admitted true] 0 (by decide)).2.2.2.2.2.1⟩

/-- C9 counterexample input: after `ev_io_stdout_cb` runs with the pipe
at end-of-stream (`eof = true`), the stdout watcher of the task is
still installed and its descriptor still open (`iooActive = true`) —
the callback ignores the eof flag, contradicting the claim that
reaching end-of-stream stops that watcher and closes the descriptor. -/
theorem c9_counterexample :
    (step 5 30 (runEvs 5 30 [Ev.admitted true]) (Ev.ioOut 0 [7] true)).running =
      [{ id := 0, timerAfter := 30, timerRepeat := 0, ob := [7], eb := [],
         iooActive := true, ioeActive := true }] := by decide

/-- C9 (amended): a stdout-readable event appends the drained bytes to
the task's stdout buffer and nothing else: the watcher stays installed
and the descriptor open even at end-of-stream (both are released only
at teardown), no reply is sent, no task is freed, and the event never
by itself terminates the task — termination happens only on child-exit
or timeout. -/
theorem c9_io_read_amended (max tmo : Nat) (evs : List Ev) (tid : Nat) (bytes : List Nat)
    (eof : Bool) (t : RTask) (ht : t ∈ (runEvs max tmo evs).running) (hid : t.id = tid) :
    { t with ob := t.ob ++ bytes } ∈
        (step max tmo (runEvs max tmo evs) (.ioOut tid bytes eof)).running ∧
    t.iooActive = true ∧ t.ioeActive = true ∧
    taskRunning (step max tmo (runEvs max tmo evs) (.ioOut tid bytes eof)) tid = true ∧
    (step max tmo (runEvs max tmo evs) (.ioOut tid bytes eof)).replies =
        (runEvs max tmo evs).replies ∧
    (step max tmo (runEvs max tmo evs) (.ioOut tid bytes eof)).freed =
        (runEvs max tmo evs).freed ∧
    (step max tmo (runEvs max tmo evs) (.ioOut tid bytes eof)).nrunning =
        (runEvs max tmo evs).nrunning ∧
    (step max tmo (runEvs max tmo evs) (.ioOut tid bytes eof)).pending =
        (runEvs max tmo evs).pending := by
  have hinv := inv_runEvs max tmo evs
  have hg : taskRunning (runEvs max tmo evs) tid = true :=
    List.any_eq_true.mpr ⟨t, ht, by simpa using hid⟩
  have hstep : step max tmo (runEvs max tmo evs) (.ioOut tid bytes eof) =
      ioOutStep tid bytes (runEvs max tmo evs) := by
    simp only [step, hg, if_true]
  have hval : (if t.id == tid then { t with ob := t.ob ++ bytes } else t) =
      { t with ob := t.ob ++ bytes } := by
    rw [if_pos (by simpa using hid)]
  refine ⟨?_, (hinv.ioActive t ht).1, (hinv.ioActive t ht).2, ?_, ?_, ?_, ?_, ?_⟩
  · rw [hstep]
    exact List.mem_map.mpr ⟨t, ht, hval⟩
  · rw [hstep]
    apply List.any_eq_true.mpr
    exact ⟨{ t with ob := t.ob ++ bytes }, List.mem_map.mpr ⟨t, ht, hval⟩, by simpa using hid⟩
  · rw [hstep]; rfl
  · rw [hstep]; rfl
  · rw [hstep]; rfl
  · rw [hstep]; rfl

/-- Witness for `c9_io_read_amended`: an eof-flagged stdout event on
the only running task leaves its watcher installed and the task
running. -/
theorem c9_io_read_amended_witness :
    taskRunning (step 5 30 (runEvs 5 30 [Ev.admitted true]) (Ev.ioOut 0 [7] true)) 0 = true :=
  (c9_io_read_amended 5 30 [Ev.admitted true] 0 [7] true (newTask 30 0) (by decide)
    rfl).2.2.2.1

/-! ## Claim theorems for the request entry path -/

/-- Concrete oracle environment for the entry-path evaluations: user
`root` exists and the crypt check passes for it, `/bin/sh` is the only
regular file, `PATH=/bin`. -/
def oEnv : Oracle :=
  { getspnam := fun u => if u == "root" then some "H" else none,
    cryptFn := fun _ h => h,
    isRegFile := fun s => s == "/bin/sh",
    envPATH := some "/bin",
    taskCallocOk := true }

/-- Well-formed request from an unknown user. -/
def msgAuthFail : JVal := .jobj [("token", .jstr "tok"),
  ("attrs", .jobj [("username", .jstr "nobody"), ("password", .jstr "x"),
    ("cmd", .jstr "sh")])]

/-- Well-formed, authenticated request for the resolvable command
`sh`. -/
def msgGood : JVal := .jobj [("token", .jstr "tok"),
  ("attrs", .jobj [("username", .jstr "root"), ("password", .jstr "x"),
    ("cmd", .jstr "sh")])]

/-- Authenticated request for a command that resolves nowhere. -/
def msgLookupFail : JVal := .jobj [("token", .jstr "tok"),
  ("attrs", .jobj [("username", .jstr "root"), ("password", .jstr "x"),
    ("cmd", .jstr "nope")])]

/-- Authenticated request whose `attrs` carry no string-valued `cmd`
field. -/
def msgNoCmd : JVal := .jobj [("token", .jstr "t"),
  ("attrs", .jobj [("username", .jstr "root"), ("password", .jstr "x")])]

/-- C4 evaluated on each exit path: the payload is freed exactly once
on the authentication-failure, resolution-failure, spawn-failure
(pipe/fork), normal child-exit and timeout paths — but zero times on
the path where the task `calloc` in `add_task` fails, which sends the
NOMEM reply and returns without `json_value_free(msg)`: the payload
leaks, contradicting the release-exactly-once claim. -/
theorem c4_payload_release_paths :
    (runCommand oEnv msgAuthFail).payloadFreed = 1 ∧
    (runCommand oEnv msgLookupFail).payloadFreed = 1 ∧
    (runEvs 5 30 [Ev.admitted false]).freed = [0] ∧
    (runEvs 5 30 [Ev.admitted true, Ev.childExit 0 0 true]).freed = [0] ∧
    (runEvs 5 30 [Ev.admitted true, Ev.timeout 0]).freed = [0] ∧
    runCommand { oEnv with taskCallocOk := false } msgGood =
      { replies := [Reply.err (some "tok") CmdErr.nomem], payloadFreed := 0,
        taskCreated := false, crashed := false } := by decide

/-- C5 evaluated on the child control flow: a failed argv `calloc`
exits with status 1, a successful `execv` replaces the image, but a
failed `execv` does not terminate the child — the `case 0:` block ends
and control falls through into the `default:` parent-side branch. -/
theorem c5_child_execv_fallthrough :
    childRun true false = ChildResult.fellThroughToParentLogic ∧
    childRun false false = ChildResult.exitedWith 1 ∧
    childRun false true = ChildResult.exitedWith 1 ∧
    childRun true true = ChildResult.imageReplaced := by decide

/-- C8: the entry point sends PERMIT and frees the payload without
creating a task whenever the username is missing or empty or the
credential check fails; it sends NOT_FOUND and frees the payload
without creating a task when authentication succeeds but resolution
fails; and a task is created only when authentication succeeded and
resolution produced a path. -/
theorem c8_entry_gating (o : Oracle) (msg : JVal) :
    (authRejected o msg →
      runCommand o msg =
        { replies := [Reply.err (jsonGetString msg "token") CmdErr.permit], payloadFreed := 1,
          taskCreated := false, crashed := false }) ∧
    (∀ c, ¬authRejected o msg →
      jsonGetStringO (jsonGetValue msg "attrs") "cmd" = some c →
      cmdLookup o.isRegFile o.envPATH c = none →
      runCommand o msg =
        { replies := [Reply.err (jsonGetString msg "token") CmdErr.notFound], payloadFreed := 1,
          taskCreated := false, crashed := false }) ∧
    ((runCommand o msg).taskCreated = true →
      ¬authRejected o msg ∧
      ∃ c p, jsonGetStringO (jsonGetValue msg "attrs") "cmd" = some c ∧
        cmdLookup o.isRegFile o.envPATH c = some p) := by
  refine ⟨?_, ?_, ?_⟩
  · intro h
    simp only [runCommand, if_pos h]
  · intro c hna hc hlook
    simp only [runCommand, if_neg hna, hc, cmdLookupC, hlook]
  · intro hcreated
    by_cases hauth : authRejected o msg
    · rw [runCommand] at hcreated
      simp only [if_pos hauth] at hcreated
      exact absurd hcreated (by decide)
    · refine ⟨hauth, ?_⟩
      rw [runCommand] at hcreated
      simp only [if_neg hauth] at hcreated
      cases hcmd : jsonGetStringO (jsonGetValue msg "attrs") "cmd" with
      | none => rw [hcmd] at hcreated; simp [cmdLookupC] at hcreated
      | some c =>
          rw [hcmd] at hcreated
          cases hlook : cmdLookup o.isRegFile o.envPATH c with
          | none => rw [cmdLookupC, hlook] at hcreated; simp at hcreated
          | some p => exact ⟨c, p, rfl, hlook⟩

/-- Witness for `c8_entry_gating`: an unknown user gets PERMIT with the
payload freed; an authenticated request for an unresolvable command
gets NOT_FOUND; a fully successful request creates a task. -/
theorem c8_entry_gating_witness :
    runCommand oEnv msgAuthFail =
      { replies := [Reply.err (some "tok") CmdErr.permit], payloadFreed := 1,
        taskCreated := false, crashed := false } ∧
    runCommand oEnv msgLookupFail =
      { replies := [Reply.err (some "tok") CmdErr.notFound], payloadFreed := 1,
        taskCreated := false, crashed := false } ∧
    (¬authRejected oEnv msgGood ∧
      ∃ c p, jsonGetStringO (jsonGetValue msgGood "attrs") "cmd" = some c ∧
        cmdLookup oEnv.isRegFile oEnv.envPATH c = some p) :=
  ⟨by
      have h := (c8_entry_gating oEnv msgAuthFail).1 (by decide)
      simpa using h,
   by
      have h := (c8_entry_gating oEnv msgLookupFail).2.1 "nope" (by decide) (by decide)
        (by decide)
      simpa using h,
   (c8_entry_gating oEnv msgGood).2.2 (by decide)⟩

/-- C10: a request whose `attrs` carry no string-valued `cmd` field
passes a NULL command name straight into `cmd_lookup` — whose first
step is `strlen(cmd)` — with no error reply sent beforehand: the
accessor yields NULL, `cmd_lookup` on NULL is undefined behaviour, and
the entry point reaches it without any guard. -/
theorem c10_null_cmd_crash :
    jsonGetStringO (jsonGetValue msgNoCmd "attrs") "cmd" = none ∧
    cmdLookupC oEnv.isRegFile oEnv.envPATH none = none ∧
    runCommand oEnv msgNoCmd =
      { replies := [], payloadFreed := 0, taskCreated := false, crashed := true } := by decide

/-! ## Claim theorems for the reply encoder -/

set_option maxRecDepth 4000 in
/-- Bound on the printed width of the exit code: `WEXITSTATUS` values
are below 256 and print in at most 3 characters. -/
theorem decLen_le_three : ∀ c < 256, decLen c ≤ 3 := by decide

set_option maxRecDepth 4000 in
/-- C7 counterexample: with a 150-byte token and empty captures the
formatted reply needs 219 bytes while `cmd_reply` allocates only 200 —
the fixed 200-byte overhead is not sufficient for every token, so the
reply is truncated for such inputs. -/
theorem c7_counterexample :
    cmdReplyAlloc 0 0 < cmdReplyNeeded (String.mk (List.replicate 150 'a')) 0 0 0 := by
  decide

/-- C7 (amended): the `ceil(4·len/3) + 200` allocation of `cmd_reply`
is sufficient for the base64 expansion of both captures plus the fixed
reply structure whenever the token is at most 124 bytes and the exit
code is a `WEXITSTATUS` value (below 256, hence at most 3 digits) —
and when the allocation fails, `cmd_reply` sends a NOMEM error reply
instead of crashing. -/
theorem c7_alloc_sufficient (token : String) (code olen elen : Nat)
    (htok : token.length ≤ 124) (hcode : code < 256) :
    cmdReplyNeeded token code olen elen ≤ cmdReplyAlloc olen elen ∧
    (∀ ob eb, cmdReply false token code ob eb = ReplySent.failure token CmdErr.nomem) := by
  constructor
  · have hd : decLen code ≤ 3 := decLen_le_three code hcode
    simp only [cmdReplyNeeded, cmdReplyAlloc, b64EncLen]
    omega
  · intro ob eb
    rfl

/-- Witness for `c7_alloc_sufficient` at a one-byte token and exit
code 0. -/
theorem c7_alloc_sufficient_witness :
    cmdReplyNeeded "t" 0 0 0 ≤ cmdReplyAlloc 0 0 :=
  (c7_alloc_sufficient "t" 0 0 0 (by decide) (by decide)).1

/-! ## Claim theorems for the executable resolver

`cmdLookupClaimed` below is a second resolver definition written from
the claim's own wording — split the search string on `:`, skip any
candidate that would overflow the buffer, and probe the remaining
directories unharmed — to be compared with the translation of the
actual `cmd_lookup` loop. -/

/-- Prepend a character onto the first component of a split. -/
def consHead (c : Char) : List (List Char) → List (List Char)
  | [] => [[c]]
  | d :: ds => (c :: d) :: ds

/-- Split a character list on `:` separators (each separator ends a
component; the final component runs to the end). -/
def splitOnColon : List Char → List (List Char)
  | [] => [[]]
  | c :: rest =>
      if c = ':' then [] :: splitOnColon rest else consHead c (splitOnColon rest)

theorem splitOnColon_cons (c : Char) (rest : List Char) :
    splitOnColon (c :: rest) =
      if c = ':' then [] :: splitOnColon rest else consHead c (splitOnColon rest) := rfl

theorem splitOnColon_nil : splitOnColon [] = [[]] := rfl

theorem splitOnColon_ne_nil : ∀ l : List Char, splitOnColon l ≠ [] := by
  intro l
  cases l with
  | nil => rw [splitOnColon_nil]; simp
  | cons c rest =>
      rw [splitOnColon_cons]
      split
      · simp
      · cases h : splitOnColon rest with
        | nil => simp [consHead]
        | cons d ds => simp [consHead]

/-- Probe of one candidate directory as the claim describes it: skip it
when the joined candidate would overflow the buffer, otherwise return
the candidate when it is an existing regular file. -/
def claimedProbe (fs : String → Bool) (cmd : String) (dir : List Char) : Option String :=
  if dir.length + (cmd.length + 1) ≥ PATH_MAX then none
  else
    let cand := String.mk dir ++ "/" ++ cmd
    if fs cand then some cand else none

/-- The resolver as the claim describes it: the command unchanged if it
is an existing regular file, else the first candidate over the
`:`-split directories that exists, with oversized candidates skipped
without corrupting the search over the remaining directories. -/
def cmdLookupClaimed (fs : String → Bool) (envPATH : Option String) (cmd : String) :
    Option String :=
  if fs cmd then some cmd
  else (splitOnColon (envPATH.getD defaultSearch).data).findSome? (claimedProbe fs cmd)

/-! ### Step equations for the `cmd_lookup` loop -/

theorem lookupLoop_other (fs : String → Bool) (cmd : String) (clen : Nat) (c : Char)
    (rest racc : List Char) (hc : ¬c = ':') :
    lookupLoop fs cmd clen (c :: rest) racc = lookupLoop fs cmd clen rest (c :: racc) := by
  simp only [lookupLoop, if_neg hc]

theorem lookupLoop_colon_over (fs : String → Bool) (cmd : String) (clen : Nat)
    (rest racc : List Char) (hover : racc.length + clen ≥ PATH_MAX) :
    lookupLoop fs cmd clen (':' :: rest) racc = lookupLoop fs cmd clen rest (':' :: racc) := by
  simp only [lookupLoop, if_pos hover, ite_self]

theorem lookupLoop_nil_over (fs : String → Bool) (cmd : String) (clen : Nat)
    (racc : List Char) (hover : racc.length + clen ≥ PATH_MAX) :
    lookupLoop fs cmd clen [] racc = none := by
  simp only [lookupLoop, if_pos hover]

/-- Scanning a run of identical non-separator characters just moves
them from the input to the current component accumulator. -/
theorem lookupLoop_run (fs : String → Bool) (cmd : String) (clen : Nat) (c : Char)
    (hc : ¬c = ':') (rest : List Char) :
    ∀ (n : Nat) (racc : List Char),
      lookupLoop fs cmd clen (List.replicate n c ++ rest) racc =
        lookupLoop fs cmd clen rest (List.replicate n c ++ racc) := by
  intro n
  induction n with
  | zero => intro racc; simp
  | succ n ih =>
      intro racc
      rw [List.replicate_succ, List.cons_append, lookupLoop_other fs cmd clen c _ _ hc, ih]
      congr 1
      rw [← List.replicate_succ, List.replicate_succ', List.append_assoc,
        List.singleton_append]

/-- Any path the scanning loop returns is an existing regular file and
fits the fixed buffer. -/
theorem lookupLoop_sound (fs : String → Bool) (cmd : String) (clen : Nat)
    (hclen : clen = cmd.length + 1) :
    ∀ (rest racc : List Char) (r : String),
      lookupLoop fs cmd clen rest racc = some r → fs r = true ∧ r.length < PATH_MAX := by
  have hlenmk : ∀ l : List Char, (String.mk l ++ "/" ++ cmd).length = l.length + 1 + cmd.length := by
    intro l
    rw [String.length_append, String.length_append, String.length_mk]
    rfl
  intro rest
  induction rest with
  | nil =>
      intro racc r h
      simp only [lookupLoop] at h
      split at h
      · exact Option.noConfusion h
      · next hover =>
          split at h
          · next hfs =>
              cases h
              refine ⟨hfs, ?_⟩
              rw [hlenmk]
              simp only [List.length_reverse]
              omega
          · exact Option.noConfusion h
  | cons c rest ih =>
      intro racc r h
      simp only [lookupLoop] at h
      split at h
      · split at h
        · exact ih _ r h
        · next hover =>
            split at h
            · next hfs =>
                cases h
                refine ⟨hfs, ?_⟩
                rw [hlenmk]
                simp only [List.length_reverse]
                omega
            · exact ih _ r h
      · exact ih _ r h

/-- A command that is itself an existing regular file is returned
unchanged. -/
theorem cmdLookup_direct (fs : String → Bool) (envPATH : Option String) (cmd : String)
    (h : fs cmd = true) : cmdLookup fs envPATH cmd = some cmd := by
  simp only [cmdLookup, if_pos h]

theorem cmdLookup_sound (fs : String → Bool) (envPATH : Option String) (cmd r : String)
    (h : cmdLookup fs envPATH cmd = some r) :
    fs r = true ∧ (r = cmd ∨ r.length < PATH_MAX) := by
  rw [cmdLookup] at h
  split at h
  · next hfs =>
      cases h
      exact ⟨hfs, Or.inl rfl⟩
  · have hs := lookupLoop_sound fs cmd (cmd.length + 1) rfl _ [] r h
    exact ⟨hs.1, Or.inr hs.2⟩

/-- Reduction of the scanning loop at a separator whose current
component fits the buffer: probe the accumulated component, and on a
miss restart the component after the separator. -/
theorem lookupLoop_colon_fit (fs : String → Bool) (cmd : String) (clen : Nat)
    (rest racc : List Char) (hnov : ¬racc.length + clen ≥ PATH_MAX) :
    lookupLoop fs cmd clen (':' :: rest) racc =
      if fs (String.mk racc.reverse ++ "/" ++ cmd) then
        some (String.mk racc.reverse ++ "/" ++ cmd)
      else lookupLoop fs cmd clen rest [] := by
  show (if racc.length + clen ≥ PATH_MAX then
          lookupLoop fs cmd clen rest (':' :: racc)
        else
          if fs (String.mk racc.reverse ++ "/" ++ cmd) then
            some (String.mk racc.reverse ++ "/" ++ cmd)
          else lookupLoop fs cmd clen rest []) = _
  rw [if_neg hnov]

/-- Reduction of the scanning loop at the end of the search string when
the final component fits the buffer. -/
theorem lookupLoop_nil_fit (fs : String → Bool) (cmd : String) (clen : Nat)
    (racc : List Char) (hnov : ¬racc.length + clen ≥ PATH_MAX) :
    lookupLoop fs cmd clen [] racc =
      if fs (String.mk racc.reverse ++ "/" ++ cmd) then
        some (String.mk racc.reverse ++ "/" ++ cmd)
      else none := by
  show (if racc.length + clen ≥ PATH_MAX then none
        else
          if fs (String.mk racc.reverse ++ "/" ++ cmd) then
            some (String.mk racc.reverse ++ "/" ++ cmd)
          else none) = _
  rw [if_neg hnov]

/-- Reduction of the per-directory probe on a directory that fits the
buffer. -/
theorem claimedProbe_fit (fs : String → Bool) (cmd : String) (dir : List Char)
    (hnov : ¬dir.length + (cmd.length + 1) ≥ PATH_MAX) :
    claimedProbe fs cmd dir =
      if fs (String.mk dir ++ "/" ++ cmd) then some (String.mk dir ++ "/" ++ cmd)
      else none := by
  rw [claimedProbe, if_neg hnov]

/-- When the component under construction and every later component are
small enough to fit the buffer, the scanning loop probes exactly the
`:`-split components in order, returning the first existing candidate:
the loop run from accumulator `racc` agrees with `findSome?` of the
per-directory probe over the remaining components (the first extended
by the accumulated prefix). -/
theorem lookupLoop_eq_findSome (fs : String → Bool) (cmd : String) :
    ∀ (rest racc d : List Char) (ds : List (List Char)),
      splitOnColon rest = d :: ds →
      racc.length + d.length + (cmd.length + 1) < PATH_MAX →
      (∀ e ∈ ds, e.length + (cmd.length + 1) < PATH_MAX) →
      lookupLoop fs cmd (cmd.length + 1) rest racc =
        List.findSome? (claimedProbe fs cmd) ((racc.reverse ++ d) :: ds) := by
  intro rest
  induction rest with
  | nil =>
      intro racc d ds hsp hhead htail
      rw [splitOnColon_nil] at hsp
      injection hsp with h1 h2
      subst h1
      subst h2
      rw [lookupLoop_nil_fit fs cmd (cmd.length + 1) racc (by omega), List.append_nil,
        List.findSome?_cons,
        claimedProbe_fit fs cmd racc.reverse (by simp only [List.length_reverse]; omega)]
      split <;> rfl
  | cons c rest ih =>
      intro racc d ds hsp hhead htail
      by_cases hc : c = ':'
      · subst hc
        rw [splitOnColon_cons, if_pos rfl] at hsp
        injection hsp with h1 h2
        subst h1
        subst h2
        rw [lookupLoop_colon_fit fs cmd (cmd.length + 1) rest racc
            (by simp only [List.length_nil] at hhead; omega),
          List.append_nil, List.findSome?_cons,
          claimedProbe_fit fs cmd racc.reverse
            (by simp only [List.length_reverse, List.length_nil] at hhead ⊢; omega)]
        split
        · rfl
        · cases hsp2 : splitOnColon rest with
          | nil => exact absurd hsp2 (splitOnColon_ne_nil rest)
          | cons d0 ds0 =>
              have hih := ih [] d0 ds0 hsp2
                (by
                  have := htail d0 (by rw [hsp2]; exact List.mem_cons_self _ _)
                  simp only [List.length_nil]
                  omega)
                (fun e he => htail e (by rw [hsp2]; exact List.mem_cons_of_mem _ he))
              rw [hih]
              simp only [List.reverse_nil, List.nil_append]
      · rw [splitOnColon_cons, if_neg hc] at hsp
        cases hsp2 : splitOnColon rest with
        | nil => exact absurd hsp2 (splitOnColon_ne_nil rest)
        | cons d0 ds0 =>
            rw [hsp2] at hsp
            simp only [consHead] at hsp
            injection hsp with h1 h2
            subst h1
            subst h2
            rw [lookupLoop_other fs cmd _ c rest racc hc]
            have hih := ih (c :: racc) d0 ds0 hsp2
              (by simp only [List.length_cons] at hhead ⊢; omega)
              htail
            rw [hih, List.reverse_cons, List.append_assoc, List.singleton_append]

/-- When no `:`-split directory of the search string is oversized, the
actual resolver agrees with the resolver the claim describes: it scans
the split directories in order and returns the first candidate that
exists as a regular file. -/
theorem cmdLookup_eq_claimed (fs : String → Bool) (envPATH : Option String) (cmd : String)
    (hok : ∀ d ∈ splitOnColon (envPATH.getD defaultSearch).data,
      d.length + (cmd.length + 1) < PATH_MAX) :
    cmdLookup fs envPATH cmd = cmdLookupClaimed fs envPATH cmd := by
  rw [cmdLookup, cmdLookupClaimed]
  by_cases hf : fs cmd = true
  · rw [if_pos hf, if_pos hf]
  · rw [if_neg hf, if_neg hf]
    cases hsp : splitOnColon (envPATH.getD defaultSearch).data with
    | nil => exact absurd hsp (splitOnColon_ne_nil _)
    | cons d ds =>
        have h := lookupLoop_eq_findSome fs cmd (envPATH.getD defaultSearch).data [] d ds hsp
          (by
            have := hok d (by rw [hsp]; exact List.mem_cons_self _ _)
            simp only [List.length_nil]
            omega)
          (fun e he => hok e (by rw [hsp]; exact List.mem_cons_of_mem _ he))
        rw [h]
        simp only [List.reverse_nil, List.nil_append]

/-- When no `:`-split directory is oversized, the command is not itself
a regular file, and no joined candidate exists as a regular file, the
resolver fails (returns NULL). -/
theorem cmdLookup_none_of_no_match (fs : String → Bool) (envPATH : Option String) (cmd : String)
    (hok : ∀ d ∈ splitOnColon (envPATH.getD defaultSearch).data,
      d.length + (cmd.length + 1) < PATH_MAX)
    (hcmd : fs cmd = false)
    (hmiss : ∀ d ∈ splitOnColon (envPATH.getD defaultSearch).data,
      fs (String.mk d ++ "/" ++ cmd) = false) :
    cmdLookup fs envPATH cmd = none := by
  rw [cmdLookup_eq_claimed fs envPATH cmd hok, cmdLookupClaimed,
    if_neg (by rw [hcmd]; exact Bool.false_ne_true)]
  rw [List.findSome?_eq_none_iff]
  intro d hd
  rw [claimedProbe]
  split
  · rfl
  · rw [if_neg (by rw [hmiss d hd]; exact Bool.false_ne_true)]

/-! ### The overflow-corruption environment -/

/-- Filesystem oracle with `/bin/sh` as the only regular file. -/
def fsOver : String → Bool := fun s => s == "/bin/sh"

/-- A directory name of 4093 `a`s: joined with `sh` it needs 4097
bytes, one more than the buffer holds. -/
def longDirChars : List Char := List.replicate 4093 'a'

/-- `PATH` value equal to the oversized directory followed by
`:/bin`. -/
def pathOver : String := String.mk (longDirChars ++ (':' :: ['/', 'b', 'i', 'n']))

theorem cmdLookup_pathOver : cmdLookup fsOver (some pathOver) "sh" = none := by
  rw [cmdLookup, if_neg (by decide)]
  show lookupLoop fsOver "sh" ("sh".length + 1)
    (List.replicate 4093 'a' ++ (':' :: ['/', 'b', 'i', 'n'])) [] = none
  rw [lookupLoop_run fsOver "sh" _ 'a' (by decide) _ 4093 [], List.append_nil,
    lookupLoop_colon_over _ _ _ _ _ (by simp only [List.length_replicate]; decide),
    lookupLoop_other _ _ _ '/' _ _ (by decide),
    lookupLoop_other _ _ _ 'b' _ _ (by decide),
    lookupLoop_other _ _ _ 'i' _ _ (by decide),
    lookupLoop_other _ _ _ 'n' _ _ (by decide)]
  exact lookupLoop_nil_over _ _ _ _
    (by simp only [List.length_cons, List.length_replicate]; decide)

theorem splitOnColon_run (c : Char) (hc : ¬c = ':') (rest d : List Char)
    (ds : List (List Char)) (hd : splitOnColon rest = d :: ds) :
    ∀ n, splitOnColon (List.replicate n c ++ rest) = (List.replicate n c ++ d) :: ds := by
  intro n
  induction n with
  | zero => simpa using hd
  | succ n ih =>
      rw [List.replicate_succ, List.cons_append, splitOnColon_cons, if_neg hc, ih]
      rfl

theorem splitOnColon_pathOver :
    splitOnColon pathOver.data = [longDirChars, ['/', 'b', 'i', 'n']] := by
  have h1 : splitOnColon (':' :: ['/', 'b', 'i', 'n']) = [] :: [['/', 'b', 'i', 'n']] := by
    decide
  have h2 := splitOnColon_run 'a' (by decide) (':' :: ['/', 'b', 'i', 'n']) []
    [['/', 'b', 'i', 'n']] h1 4093
  show splitOnColon (List.replicate 4093 'a' ++ (':' :: ['/', 'b', 'i', 'n'])) = _
  rw [h2, List.append_nil]
  rfl

theorem cmdLookupClaimed_pathOver :
    cmdLookupClaimed fsOver (some pathOver) "sh" = some "/bin/sh" := by
  have hp1 : claimedProbe fsOver "sh" longDirChars = none := by
    rw [claimedProbe,
      if_pos (by simp only [longDirChars, List.length_replicate]; decide)]
  have hp2 : claimedProbe fsOver "sh" ['/', 'b', 'i', 'n'] = some "/bin/sh" := by decide
  rw [cmdLookupClaimed, if_neg (by decide)]
  show (splitOnColon pathOver.data).findSome? (claimedProbe fsOver "sh") = some "/bin/sh"
  rw [splitOnColon_pathOver]
  simp only [List.findSome?_cons, hp1, hp2]

/-- C6 counterexample: with `PATH` equal to an oversized directory
(4093 `a`s) followed by `:/bin`, the command `sh`, and `/bin/sh` the
only regular file, the resolver the claim describes skips the
oversized candidate and finds `/bin/sh`, but `cmd_lookup` returns
NULL: its overflow `continue` bypasses the `search = p + 1` advance,
so `/bin` is scanned only as the tail of one oversized component and
never probed on its own. -/
theorem c6_counterexample :
    cmdLookupClaimed fsOver (some pathOver) "sh" = some "/bin/sh" ∧
    cmdLookup fsOver (some pathOver) "sh" = none :=
  ⟨cmdLookupClaimed_pathOver, cmdLookup_pathOver⟩

/-- C6 (amended): the resolver returns a command that is itself an
existing regular file unchanged; whenever no `:`-split directory of
the search string is oversized it scans those directories in order and
returns the first joined candidate that exists as a regular file
(`cmdLookupClaimed`), failing (NULL) when the command is not a regular
file and no candidate matches; any path it returns is an existing
regular file that (unless it is the unmodified input) fits the fixed
buffer — an oversized candidate is skipped without crashing and
without being returned; but the skip corrupts the search over the
remaining directories: the directory after an oversized one is probed
only as part of a single concatenated component, so a command present
there is not found. -/
theorem c6_lookup_amended :
    (∀ fs envPATH cmd, fs cmd = true → cmdLookup fs envPATH cmd = some cmd) ∧
    (∀ fs envPATH cmd,
      (∀ d ∈ splitOnColon (envPATH.getD defaultSearch).data,
        d.length + (cmd.length + 1) < PATH_MAX) →
      cmdLookup fs envPATH cmd = cmdLookupClaimed fs envPATH cmd) ∧
    (∀ fs envPATH cmd,
      (∀ d ∈ splitOnColon (envPATH.getD defaultSearch).data,
        d.length + (cmd.length + 1) < PATH_MAX) →
      fs cmd = false →
      (∀ d ∈ splitOnColon (envPATH.getD defaultSearch).data,
        fs (String.mk d ++ "/" ++ cmd) = false) →
      cmdLookup fs envPATH cmd = none) ∧
    (∀ fs envPATH cmd r, cmdLookup fs envPATH cmd = some r →
      fs r = true ∧ (r = cmd ∨ r.length < PATH_MAX)) ∧
    cmdLookup fsOver (some pathOver) "sh" = none :=
  ⟨fun fs envPATH cmd h => cmdLookup_direct fs envPATH cmd h,
   fun fs envPATH cmd hok => cmdLookup_eq_claimed fs envPATH cmd hok,
   fun fs envPATH cmd hok hcmd hmiss => cmdLookup_none_of_no_match fs envPATH cmd hok hcmd hmiss,
   fun fs envPATH cmd r h => cmdLookup_sound fs envPATH cmd r h,
   cmdLookup_pathOver⟩

/-- Witness for `c6_lookup_amended`: a direct hit is returned
unchanged; on the small search string `/a:/bin` the resolver agrees
with the claim-described resolver; with no matching candidate it
returns NULL; and a path found through `PATH` exists and fits the
buffer. -/
theorem c6_lookup_amended_witness :
    cmdLookup (fun s => s == "/x") none "/x" = some "/x" ∧
    cmdLookup (fun s => s == "/bin/sh") (some "/a:/bin") "sh" =
      cmdLookupClaimed (fun s => s == "/bin/sh") (some "/a:/bin") "sh" ∧
    cmdLookup (fun _ => false) (some "/a") "sh" = none ∧
    ((fun s => s == "/bin/sh") "/bin/sh" = true ∧
      ("/bin/sh" = "sh" ∨ ("/bin/sh" : String).length < PATH_MAX)) :=
  ⟨c6_lookup_amended.1 (fun s => s == "/x") none "/x" (by decide),
   c6_lookup_amended.2.1 (fun s => s == "/bin/sh") (some "/a:/bin") "sh" (by decide),
   c6_lookup_amended.2.2.1 (fun _ => false) (some "/a") "sh" (by decide) (by decide)
     (by decide),
   c6_lookup_amended.2.2.2.1 (fun s => s == "/bin/sh") (some "/bin") "sh" "/bin/sh"
     (by decide)⟩

end Rtty
